import Mathlib

/-!
Verification of the BioRAG-LR retrieval-augmented-generation pipeline.

The Python sources are shallowly embedded:
  - `src/src/document_loader.py`  : `DocumentProcessor` (chunking configuration
    and PDF-loading metadata enhancement);
  - `src/src/rag_pipeline.py`     : `RAGPipeline.format_sources` and
    `RAGPipeline.ask`;
  - `src/process_pdfs.py`         : `enhance_document_metadata` and `main`;
  - `src/app.py`                  : the chat handler owning session history.

Python dictionaries of optional metadata are modelled as a structure of
`Option String` fields (a `none` field is an absent key; `.get(k, "")` is
`Option.getD`, and Python string truthiness is `≠ ""`).  Python string
operations (`os.path.basename`, `os.path.splitext`, `str.title`, `re.sub`
on the character classes used, `"sep".join`) are re-implemented on
character lists.  External collaborators (the langchain QA chain, the
vector store) are modelled by their outcome: an `Except` value that is
either the response dictionary or the message of a raised exception.
-/

namespace BioRAG

/-- Python `dict.get(key, "")`, via `Option.getD`. -/
def getS (o : Option String) : String := o.getD ("")

/-- Left-to-right scan keeping the segment after the last `/`. -/
def basenameAux : List Char → List Char → List Char
  | [], acc => acc
  | c :: cs, acc => basenameAux cs (if c = '/' then [] else acc ++ [c])

/-- Python `os.path.basename` (posix): the component after the last slash. -/
def basename (p : String) : String := ⟨basenameAux p.data []⟩

/-- Index `i` is the dot starting the extension: the character is `.` and some
earlier character is not a dot (Python `os.path.splitext` keeps leading dots). -/
def isExtDot (cs : List Char) (i : Nat) : Bool :=
  (cs.getD i ' ' == '.') && ((List.range i).any fun j => cs.getD j ' ' != '.')

/-- Python `os.path.splitext(s)[0]`: the name with its extension stripped;
the extension starts at the last dot preceded by some non-dot character. -/
def splitextStem (s : String) : String :=
  match (((List.range s.data.length).filter (isExtDot s.data)).getLast?) with
  | some i => ⟨s.data.take i⟩
  | none => s

/-- Python `re.sub(r'[_\x5c-]', ' ', s)`: underscores and hyphens to spaces. -/
def replaceUH (s : String) : String :=
  ⟨s.data.map fun c => if c = '_' ∨ c = '-' then ' ' else c⟩

/-- One pass of Python `str.title`: a letter after a non-letter is uppercased,
a letter after a letter is lowercased. -/
def pyTitleAux : List Char → Bool → List Char
  | [], _ => []
  | c :: cs, prevAlpha =>
    if c.isAlpha then
      (if prevAlpha then c.toLower else c.toUpper) :: pyTitleAux cs true
    else
      c :: pyTitleAux cs false

/-- Python `str.title` (ASCII model). -/
def pyTitle (s : String) : String := ⟨pyTitleAux s.data false⟩

/-- Python `str.lower` (ASCII model). -/
def strLower (s : String) : String := ⟨s.data.map Char.toLower⟩

/-- Python `str.endswith`. -/
def strEndsWith (s suf : String) : Bool :=
  suf.data.reverse.isPrefixOf s.data.reverse

/-- Python `sub in s`: substring containment. -/
def containsSub (s sub : String) : Bool :=
  (List.range (s.data.length + 1)).any fun i => sub.data.isPrefixOf (s.data.drop i)

/-- Python `str.strip`: whitespace removed from both ends. -/
def stripStr (s : String) : String :=
  ⟨((s.data.dropWhile Char.isWhitespace).reverse.dropWhile Char.isWhitespace).reverse⟩

/-- Fuel-driven body of `collapseSpaces` (fuel bounds the number of steps so the
definition stays structural and kernel-reducible). -/
def collapseSpacesAux : Nat → List Char → List Char
  | 0, _ => []
  | _, [] => []
  | fuel + 1, c :: cs =>
    if c.isWhitespace then ' ' :: collapseSpacesAux fuel (cs.dropWhile Char.isWhitespace)
    else c :: collapseSpacesAux fuel cs

/-- Python `re.sub(r'\s+', ' ', s)`: whitespace runs become one space. -/
def collapseSpaces (s : String) : String := ⟨collapseSpacesAux s.data.length s.data⟩

/-- Python `"sep".join(parts)`. -/
def joinSep (sep : String) : List String → String
  | [] => ""
  | [x] => x
  | x :: y :: xs => x ++ sep ++ joinSep sep (y :: xs)

/-- The metadata mapping carried by a langchain document or chunk.  A `none`
field is a key absent from the underlying Python dict. -/
structure Metadata where
  paper_title : Option String := none
  authors : Option String := none
  journal : Option String := none
  year : Option String := none
  volume : Option String := none
  page : Option String := none
  pages : Option String := none
  doi : Option String := none
  source : Option String := none
deriving DecidableEq, Repr

/-- A langchain `Document`: page content plus its metadata mapping. -/
structure Document where
  page_content : String := ""
  metadata : Metadata := {}
deriving DecidableEq, Repr

/-! ## `RAGPipeline.format_sources` (src/src/rag_pipeline.py, lines 56-152) -/

/-- Lines 98-102: when `paper_title` is falsy and `source` is truthy, the title
is derived from the file name (strip extension, `[_-]` to spaces, title-case);
otherwise the `paper_title` value (possibly empty) is used. -/
def derivedTitle (md : Metadata) : String :=
  if getS md.paper_title = "" ∧ getS md.source ≠ "" then
    pyTitle (replaceUH (splitextStem (basename (getS md.source))))
  else getS md.paper_title

/-- Line 94: `pages = doc.metadata.get('page', doc.metadata.get('pages', ''))`. -/
def pagesVal (md : Metadata) : String :=
  match md.page with
  | some p => p
  | none => getS md.pages

/-- Lines 117-124: the journal string with volume, pages and year folded in
when truthy. -/
def journalInfo (md : Metadata) : String :=
  getS md.journal
    ++ (if getS md.volume ≠ "" then (" " ++ getS md.volume) else (""))
    ++ (if pagesVal md ≠ "" then (", " ++ pagesVal md) else (""))
    ++ (if getS md.year ≠ "" then (" (" ++ getS md.year ++ ")") else (""))

/-- Lines 104-130: the `citation_parts` list for the document at 0-based
position `i` (the placeholder renders `i + 1`). -/
def citationParts (i : Nat) (md : Metadata) : List String :=
  (if derivedTitle md ≠ "" then ["**Title**: " ++ derivedTitle md]
   else ["**Document " ++ toString (i + 1) ++ "**"])
  ++ (if getS md.authors ≠ "" then ["**Authors**: " ++ getS md.authors] else [])
  ++ (if getS md.journal ≠ "" then ["**Journal**: " ++ journalInfo md]
      else if getS md.year ≠ "" then ["**Year**: " ++ getS md.year] else [])
  ++ (if getS md.doi ≠ "" then ["**DOI**: " ++ getS md.doi] else [])

/-- Line 133: `citation = " | ".join(citation_parts)`. -/
def citationOf (i : Nat) (md : Metadata) : String :=
  joinSep (" | ") (citationParts i md)

/-- Lines 136-139: the deduplication key — the source path when truthy, else
the `title_authors_journal` composite (at that point `paper_title` is the
possibly-derived title, which for an empty source equals the raw value). -/
def citationKey (md : Metadata) : String :=
  if getS md.source ≠ "" then getS md.source
  else derivedTitle md ++ "_" ++ getS md.authors ++ "_" ++ getS md.journal

/-- Lines 83-143: the citation-collecting loop with its `seen_sources` set. -/
def formatLoop : Nat → List String → List Document → List String
  | _, _, [] => []
  | i, seen, d :: rest =>
    if citationKey d.metadata ∈ seen then formatLoop (i + 1) seen rest
    else citationOf i d.metadata :: formatLoop (i + 1) (citationKey d.metadata :: seen) rest

/-- Lines 56-152: `RAGPipeline.format_sources`. -/
def format_sources (docs : List Document) : List String :=
  let citations := formatLoop 0 [] docs
  if citations = [] ∧ docs.length > 0 then
    ["Sources found but citation metadata is incomplete"]
  else if citations = [] then
    ["No relevant sources found"]
  else citations

/-! ## `RAGPipeline.ask` (src/src/rag_pipeline.py, lines 154-193) -/

/-- The dictionary returned by the langchain QA chain: `response.get("result",
...)` and `response.get("source_documents", [])` are `Option.getD` on these
fields (a `none` field is an absent key). -/
structure QAResponse where
  result : Option String := none
  source_documents : Option (List Document) := none
deriving DecidableEq, Repr

/-- A value stored in the response dictionary built by `ask`. -/
inductive RespVal where
  | str : String → RespVal
  | strList : List String → RespVal
  | docList : List Document → RespVal
deriving DecidableEq, Repr

/-- Line 190: the fallback answer wrapping the exception text `str(e)`. -/
def errorAnswer (e : String) : String :=
  "I encountered an error while processing your question. Please try again or rephrase your question. Error: " ++ e

/-- Lines 154-193: `RAGPipeline.ask`.  The argument is the outcome of the
`self.qa({"query": question})` stage: `.ok` its response dictionary, `.error`
the message of the exception it raised.  The result is the returned Python
dict as a key/value list; `ask` is a total function — every exception from the
stage lands in the `.error` branch, none propagates. -/
def ask (qaOutcome : Except String QAResponse) : List (String × RespVal) :=
  match qaOutcome with
  | .ok response =>
    let source_docs := response.source_documents.getD []
    [("answer", .str (response.result.getD ("Could not generate an answer"))),
     ("source_documents", .docList source_docs),
     ("formatted_citations", .strList (format_sources source_docs))]
  | .error e =>
    [("answer", .str (errorAnswer e)),
     ("source_documents", .docList []),
     ("formatted_citations", .strList ["Error processing sources"])]

/-- Python `d[k]` / `k in d` on the response dict: the first binding of `k`. -/
def dictFind (d : List (String × RespVal)) (k : String) : Option RespVal :=
  (d.find? fun p => p.1 == k).map Prod.snd

/-- Python `d.keys()` for the response dict. -/
def dictKeys (d : List (String × RespVal)) : List String := d.map Prod.fst

/-- The mutable state of a `RAGPipeline` instance.  `__init__` (lines 9-54)
stores the vector-store/retriever/prompt/llm/qa-chain handles, all determined
by the constructor arguments modelled here (the database path and the
retriever's `k = 5`); no attribute holds a conversation history, and `ask`
assigns no attribute. -/
structure RAGPipeline where
  vector_db_path : String
  search_k : Nat
deriving DecidableEq, Repr

/-- The method `ask` as a state transformer on the facade instance: its body
contains no assignment to `self`, so the state passes through unchanged. -/
def askSt (p : RAGPipeline) (qaOutcome : Except String QAResponse) :
    RAGPipeline × List (String × RespVal) :=
  (p, ask qaOutcome)

/-! ## `DocumentProcessor` (src/src/document_loader.py) -/

/-- Line 8: `chunk_size=1000`. -/
def chunk_size : Nat := 1000

/-- Line 9: `chunk_overlap=200`. -/
def chunk_overlap : Nat := 200

/-- Modelled from the spec: the recursive text splitter itself is langchain's
`RecursiveCharacterTextSplitter`, which is not part of this repository; the
spec describes its contract as segments of at most `size` characters with the
configured overlap between consecutive segments, so the model is a sliding
window of width `size` advancing by `stride = size - overlap` characters
("boundary rounding aside").  The fuel argument (initially the text length)
only makes the recursion structural; it is never exhausted when `stride ≥ 1`. -/
def chunkWindows (size stride : Nat) : Nat → List Char → List (List Char)
  | 0, cs => [cs]
  | fuel + 1, cs =>
    if cs.length ≤ size then [cs]
    else cs.take size :: chunkWindows size stride fuel (cs.drop stride)

/-- Splitting one text with the repository's configured parameters. -/
def splitText (cs : List Char) : List (List Char) :=
  chunkWindows chunk_size (chunk_size - chunk_overlap) cs.length cs

/-- Modelled from the spec: `split_documents` (langchain) splits each
document's text and attaches the parent document's metadata to every chunk
("attaches metadata inherited from the source document"). -/
def split_documents (docs : List Document) : List Document :=
  (docs.map fun d =>
    (splitText d.page_content.data).map fun cs =>
      { page_content := ⟨cs⟩, metadata := d.metadata }).flatten

/-- Lines 23-34 of `document_loader.py`: when the metadata has a `source` key,
set `paper_title` to the file name with its extension stripped, and default an
absent `page` key to `""`. -/
def loaderEnhanceMeta (md : Metadata) : Metadata :=
  match md.source with
  | some s =>
    { md with
      paper_title := some (splitextStem (basename s)),
      page := some (md.page.getD ("")) }
  | none => md

/-- Lines 13-36: `DocumentProcessor.load_pdfs`, starting from the documents
the directory loader produced (the PDF parsing itself is external). -/
def load_pdfs (docs : List Document) : List Document :=
  split_documents (docs.map fun d => { d with metadata := loaderEnhanceMeta d.metadata })

/-! ## `process_pdfs.py` -/

/-- Line 12: the key of the one entry of the `known_papers` table. -/
def knownPaperKey : String := "s41598-018-27829-9"

/-- Lines 12-20: the metadata of the one known paper. -/
def knownPaperMeta (md : Metadata) : Metadata :=
  { md with
    paper_title := some ("Metabolomic profiles of bovine cumulus cells and cumulus-oocyte-complex-conditioned medium during maturation in vitro"),
    authors := some ("Uhde et al."),
    journal := some ("Scientific Reports"),
    year := some ("2018"),
    volume := some ("8"),
    pages := some ("9477"),
    doi := some ("10.1038/s41598-018-27829-9") }

/-- Lines 38-48: the cleaned title derived from the file name. -/
def cleanTitle (sourceFile : String) : String :=
  pyTitle (collapseSpaces (stripStr (replaceUH (splitextStem (basename sourceFile)))))

/-- Lines 24-55: the per-document body of `enhance_document_metadata`. -/
def enhanceMeta (md : Metadata) : Metadata :=
  let sourceFile := strLower (getS md.source)
  let matched := containsSub sourceFile knownPaperKey
  let md1 := if matched then knownPaperMeta md else md
  if ¬ matched ∨ md1.paper_title = none ∨ getS md1.paper_title = "" then
    let md2 :=
      if md1.paper_title = none ∨ getS md1.paper_title = "" then
        { md1 with paper_title := some (cleanTitle sourceFile) }
      else md1
    let md3 :=
      if md2.authors = none then { md2 with authors := some ("Unknown Author") } else md2
    if md3.journal = none then { md3 with journal := some ("Unknown Journal") } else md3
  else md1

/-- Lines 6-57: `enhance_document_metadata` over the chunk list. -/
def enhance_document_metadata (docs : List Document) : List Document :=
  docs.map fun d => { d with metadata := enhanceMeta d.metadata }

/-- The observable outcome of one run of `process_pdfs.main`. -/
inductive IngestOutcome where
  | createdDirAndPrompted
  | noPdfFiles
  | noChunks
  | vectorStoreCreated
  | vectorStoreError (e : String)
  | raised (e : String)
deriving DecidableEq, Repr

/-- A finished ingestion run: its outcome and whether an index was written. -/
structure IngestRun where
  outcome : IngestOutcome
  indexWritten : Bool
deriving DecidableEq, Repr

/-- Line 70: `[f for f in os.listdir(dir) if f.lower().endswith('.pdf')]`. -/
def pdfFilter (entries : List String) : List String :=
  entries.filter fun f => strEndsWith (strLower f) (".pdf")

/-- Lines 59-115: `process_pdfs.main`.  Inputs model the environment: whether
the papers directory exists, its entries, the chunks `load_pdfs` produced,
and the outcome of `create_vector_store`.  Every branch returns normally —
the function prints diagnostics and `return`s early; no branch raises, so no
run produces the `.raised` outcome. -/
def mainIngest (dirExists : Bool) (entries : List String)
    (chunks : List Document) (createResult : Except String Unit) : IngestRun :=
  if ¬ dirExists then ⟨.createdDirAndPrompted, false⟩
  else if pdfFilter entries = [] then ⟨.noPdfFiles, false⟩
  else if chunks = [] then ⟨.noChunks, false⟩
  else
    match createResult with
    | .ok _ => ⟨.vectorStoreCreated, true⟩
    | .error e => ⟨.vectorStoreError e, false⟩

/-! ## The chat handler (src/app.py, lines 71-154) -/

/-- One record of `st.session_state.chat_history`: user records have no
`citations` key (`none`), assistant records carry one. -/
structure ChatMessage where
  role : String
  content : String
  citations : Option (List String) := none
deriving DecidableEq, Repr

/-- Lines 96-97: `response.get("answer", "Could not generate an answer")`. -/
def extractAnswer (resp : List (String × RespVal)) : String :=
  match dictFind resp ("answer") with
  | some (.str s) => s
  | _ => "Could not generate an answer"

/-- Lines 100-101: `response["formatted_citations"]` (the key is present in
every dict `ask` returns, so the `elif` fallback branches are unreachable). -/
def extractCitations (resp : List (String × RespVal)) : List String :=
  match dictFind resp ("formatted_citations") with
  | some (.strList l) => l
  | _ => []

/-- Lines 80-133: one chat turn.  The handler appends the user record, calls
`ask` (whose stage outcome is `qaOutcome`), and appends the assistant record
with the answer and citations. -/
def chatTurn (hist : List ChatMessage) (prompt : String)
    (qaOutcome : Except String QAResponse) : List ChatMessage :=
  let hist1 := hist ++ [⟨"user", prompt, none⟩]
  let response := ask qaOutcome
  hist1 ++ [⟨"assistant", extractAnswer response, some (extractCitations response)⟩]

/-- Lines 44-46 and 152-154: the Reset System / Clear Conversation buttons set
`st.session_state.chat_history = []`. -/
def clearConversation (_hist : List ChatMessage) : List ChatMessage := []

/-! ## Specification-side helpers for stating the theorems -/

/-- The first four characters of a citation part, enough to identify which
metadata field the part renders (`**Ti`, `**Do`, `**Au`, `**Jo`, `**Ye`,
`**DO`). -/
def fieldTag (s : String) : List Char := s.data.take 4

/-- The positions (0-based) and documents whose citations survive the
deduplication of `formatLoop`, given the keys already seen. -/
def keptFrom (seen : List String) : Nat → List Document → List (Nat × Document)
  | _, [] => []
  | i, d :: rest =>
    if citationKey d.metadata ∈ seen then keptFrom seen (i + 1) rest
    else (i, d) :: keptFrom (citationKey d.metadata :: seen) (i + 1) rest

/-! # Theorems -/

/-- Appending strings appends their character lists (definitional). -/
theorem data_append (s t : String) : (s ++ t).data = s.data ++ t.data := rfl

/-- A string whose first character exists is not empty. -/
theorem ne_empty_of_head (s : String) (c : Char) (h : s.data.head? = some c) :
    s ≠ "" := by
  intro he
  rw [he] at h
  exact Option.noConfusion h

/-- Joining a part list with `" | "` keeps the head part's four-character tag
when the head part has at least four characters. -/
theorem fieldTag_joinSep (x : String) (rest : List String) (h : 4 ≤ x.data.length) :
    fieldTag (joinSep (" | ") (x :: rest)) = fieldTag x := by
  cases rest with
  | nil => rfl
  | cons y ys =>
    show (((x ++ " | ") ++ joinSep (" | ") (y :: ys)).data).take 4 = x.data.take 4
    rw [data_append, data_append, List.append_assoc, List.take_append_eq_append_take]
    have h0 : 4 - x.data.length = 0 := by omega
    rw [h0, List.take_zero, List.append_nil]

/-- Every citation string starts with the title part's tag (`**Ti`) or the
placeholder part's tag (`**Do`): the parts list always begins with one of the
two and `" | ".join` keeps the head's first characters. -/
theorem citationOf_tag (i : Nat) (md : Metadata) :
    fieldTag (citationOf i md) = ['*', '*', 'T', 'i']
    ∨ fieldTag (citationOf i md) = ['*', '*', 'D', 'o'] := by
  unfold citationOf citationParts
  by_cases ht : derivedTitle md ≠ ""
  · left
    rw [if_pos ht, List.singleton_append, List.cons_append, List.cons_append, fieldTag_joinSep]
    · rfl
    · rw [data_append, List.length_append]
      have : ("**Title**: ").data.length = 11 := rfl
      omega
  · right
    rw [if_neg ht, List.singleton_append, List.cons_append, List.cons_append, fieldTag_joinSep]
    · rfl
    · rw [data_append, data_append, List.length_append, List.length_append]
      have : ("**Document ").data.length = 11 := rfl
      omega

/-- For a non-empty document list the branch cascade of `format_sources`
returns the loop's citations, which are non-empty (the first document's key
is never in the initially empty seen set). -/
theorem format_sources_eq (docs : List Document) (h : docs ≠ []) :
    format_sources docs = formatLoop 0 [] docs ∧ formatLoop 0 [] docs ≠ [] := by
  obtain ⟨d, rest, rfl⟩ := List.exists_cons_of_ne_nil h
  have hloop : formatLoop 0 [] (d :: rest)
      = citationOf 0 d.metadata :: formatLoop 1 [citationKey d.metadata] rest := by
    simp [formatLoop]
  refine ⟨?_, by simp [hloop]⟩
  rw [format_sources]
  simp [hloop]

/-- C1, counterexample.  When the QA stage raises, `ask` catches the exception
but returns the one-element citation list `["Error processing sources"]`, not
the empty list the claim requires. -/
theorem C1_counterexample :
    dictFind (ask (.error "Connection refused")) ("formatted_citations")
      = some (.strList ["Error processing sources"])
    ∧ (["Error processing sources"] : List String) ≠ [] := by
  constructor
  · rfl
  · intro h
    exact List.noConfusion h

/-- C1, amended.  `ask` is total: on an internal-stage exception it returns a
dictionary whose answer is the non-empty error-explaining string, whose
source-document list is empty, and whose formatted-citation list is the
one-element sentinel `["Error processing sources"]` (not the empty list). -/
theorem C1_ask_error_result (e : String) :
    ask (.error e)
      = [("answer", .str (errorAnswer e)),
         ("source_documents", .docList []),
         ("formatted_citations", .strList ["Error processing sources"])]
    ∧ errorAnswer e ≠ ""
    ∧ extractCitations (ask (.error e)) = ["Error processing sources"] :=
  ⟨rfl, ne_empty_of_head _ 'I' rfl, rfl⟩

/-- C1, witness: the amended theorem evaluated at a concrete stage error. -/
theorem C1_ask_error_result_witness :
    errorAnswer ("boom") ≠ ""
    ∧ extractCitations (ask (.error "boom")) = ["Error processing sources"] :=
  ⟨(C1_ask_error_result ("boom")).2.1, (C1_ask_error_result ("boom")).2.2⟩

/-- C2, counterexample.  A document with no usable metadata still yields the
non-empty placeholder citation `**Document 1**`, so `format_sources` on such
input returns that placeholder and never the incomplete-metadata sentinel. -/
theorem C2_counterexample :
    format_sources [{ page_content := "", metadata := {} }] = ["**Document 1**"]
    ∧ ("**Document 1**" : String) ≠ "Sources found but citation metadata is incomplete" := by
  constructor
  · rfl
  · decide

/-- C2, amended.  `format_sources []` is exactly
`["No relevant sources found"]`; for any non-empty input the result is the
per-document citation list, which is non-empty because every document yields a
non-empty citation (at minimum the `**Document i**` placeholder), so the
`["Sources found but citation metadata is incomplete"]` sentinel branch is
unreachable and the two sentinels never collide. -/
theorem C2_sentinels (docs : List Document) (h : docs ≠ []) :
    format_sources [] = ["No relevant sources found"]
    ∧ format_sources docs = formatLoop 0 [] docs
    ∧ formatLoop 0 [] docs ≠ []
    ∧ format_sources docs ≠ ["Sources found but citation metadata is incomplete"] := by
  obtain ⟨heq, hne⟩ := format_sources_eq docs h
  refine ⟨rfl, heq, hne, ?_⟩
  obtain ⟨d, rest, rfl⟩ := List.exists_cons_of_ne_nil h
  have hloop : formatLoop 0 [] (d :: rest)
      = citationOf 0 d.metadata :: formatLoop 1 [citationKey d.metadata] rest := by
    simp [formatLoop]
  rw [heq, hloop]
  intro hbad
  have hhead : citationOf 0 d.metadata
      = "Sources found but citation metadata is incomplete" :=
    (List.cons.injEq _ _ _ _ ▸ hbad).1
  have htag := citationOf_tag 0 d.metadata
  rw [hhead] at htag
  rcases htag with h1 | h1 <;> exact absurd h1 (by decide)

/-- C2, witness: the amended theorem evaluated at a one-document input with
empty metadata. -/
theorem C2_sentinels_witness :
    format_sources [] = ["No relevant sources found"]
    ∧ format_sources [{ page_content := "", metadata := {} }]
        ≠ ["Sources found but citation metadata is incomplete"] :=
  ⟨(C2_sentinels [{ page_content := "", metadata := {} }] (by decide)).1,
   (C2_sentinels [{ page_content := "", metadata := {} }] (by decide)).2.2.2⟩

/-- C3, counterexample.  The dictionary `ask` returns has no key named
`citations`: its keys are `answer`, `source_documents` and
`formatted_citations`. -/
theorem C3_counterexample :
    dictKeys (ask (.ok { result := some ("An answer."), source_documents := some [] }))
      = ["answer", "source_documents", "formatted_citations"]
    ∧ dictFind (ask (.ok { result := some ("An answer."), source_documents := some [] }))
        ("citations") = none := by
  constructor
  · rfl
  · rfl

/-- C3, amended.  For every stage outcome, `ask` returns a dictionary with
exactly the keys `answer` (a string), `source_documents` (a document list) and
`formatted_citations` (a string list); there is no `citations` key — the
citation list travels under `formatted_citations`. -/
theorem C3_ask_shape (qaOutcome : Except String QAResponse) :
    dictKeys (ask qaOutcome) = ["answer", "source_documents", "formatted_citations"]
    ∧ (∃ s, dictFind (ask qaOutcome) ("answer") = some (.str s))
    ∧ (∃ l, dictFind (ask qaOutcome) ("formatted_citations") = some (.strList l))
    ∧ dictFind (ask qaOutcome) ("citations") = none := by
  cases qaOutcome with
  | ok response => exact ⟨rfl, ⟨_, rfl⟩, ⟨_, rfl⟩, rfl⟩
  | error e => exact ⟨rfl, ⟨_, rfl⟩, ⟨_, rfl⟩, rfl⟩

/-- C3, witness: the key shape evaluated at a concrete successful outcome. -/
theorem C3_ask_shape_witness :
    dictKeys (ask (.ok { result := some ("hi"), source_documents := some [] }))
      = ["answer", "source_documents", "formatted_citations"] :=
  (C3_ask_shape (.ok { result := some ("hi"), source_documents := some [] })).1

/-- The citation loop returns exactly the citations of the kept documents. -/
theorem formatLoop_eq_keptFrom (docs : List Document) :
    ∀ (i : Nat) (seen : List String),
      formatLoop i seen docs
        = (keptFrom seen i docs).map fun p => citationOf p.1 p.2.metadata := by
  induction docs with
  | nil => intro i seen; rfl
  | cons d rest ih =>
    intro i seen
    by_cases h : citationKey d.metadata ∈ seen
    · simp [formatLoop, keptFrom, h, ih]
    · simp [formatLoop, keptFrom, h, ih]

/-- The kept documents are a sublist of the position-enumerated input. -/
theorem keptFrom_sublist (docs : List Document) :
    ∀ (i : Nat) (seen : List String), List.Sublist (keptFrom seen i docs) (List.enumFrom i docs) := by
  induction docs with
  | nil => intro i seen; simp [keptFrom]
  | cons d rest ih =>
    intro i seen
    rw [List.enumFrom_cons]
    by_cases h : citationKey d.metadata ∈ seen
    · simp only [keptFrom, if_pos h]
      exact List.Sublist.cons (i, d) (ih (i + 1) seen)
    · simp only [keptFrom, if_neg h]
      exact List.Sublist.cons₂ (i, d) (ih (i + 1) (citationKey d.metadata :: seen))

/-- The keys of the kept documents avoid the seen set and are pairwise
distinct. -/
theorem keptFrom_keys (docs : List Document) :
    ∀ (i : Nat) (seen : List String),
      (∀ p ∈ keptFrom seen i docs, citationKey p.2.metadata ∉ seen)
      ∧ ((keptFrom seen i docs).map fun p => citationKey p.2.metadata).Nodup := by
  induction docs with
  | nil => intro i seen; simp [keptFrom]
  | cons d rest ih =>
    intro i seen
    by_cases h : citationKey d.metadata ∈ seen
    · simpa [keptFrom, h] using ih (i + 1) seen
    · have ⟨ih1, ih2⟩ := ih (i + 1) (citationKey d.metadata :: seen)
      rw [keptFrom, if_neg h]
      constructor
      · intro p hp
        rcases List.mem_cons.mp hp with rfl | hp'
        · exact h
        · exact fun hs => ih1 p hp' (List.mem_cons_of_mem _ hs)
      · rw [List.map_cons, List.nodup_cons]
        refine ⟨?_, ih2⟩
        intro hmem
        obtain ⟨p, hp, hkey⟩ := List.mem_map.mp hmem
        exact ih1 p hp (hkey ▸ List.mem_cons_self _ _)

/-- Membership characterization of the kept documents: position `m` of the
input survives exactly when its key is not in the ambient seen set and no
earlier input position has the same key (so the first occurrence survives). -/
theorem keptFrom_mem_iff (docs : List Document) :
    ∀ (i : Nat) (seen : List String) (j : Nat) (d : Document),
      ((j, d) ∈ keptFrom seen i docs)
        ↔ ∃ m, m < docs.length ∧ j = i + m ∧ docs.getD m {} = d
            ∧ citationKey d.metadata ∉ seen
            ∧ citationKey d.metadata ∉ (docs.take m).map fun x => citationKey x.metadata := by
  induction docs with
  | nil => intro i seen j d; simp [keptFrom]
  | cons x rest ih =>
    intro i seen j d
    by_cases hx : citationKey x.metadata ∈ seen
    · rw [keptFrom, if_pos hx, ih]
      constructor
      · rintro ⟨m, hm, hj, hd, hseen, htake⟩
        refine ⟨m + 1, by simpa using hm, by omega, by simpa using hd, hseen, ?_⟩
        rw [List.take_succ_cons, List.map_cons]
        intro hmem
        rcases List.mem_cons.mp hmem with heq | hmem'
        · exact hseen (heq ▸ hx)
        · exact htake hmem'
      · rintro ⟨m, hm, hj, hd, hseen, htake⟩
        cases m with
        | zero =>
          rw [List.getD_cons_zero] at hd
          exact absurd (hd ▸ hx) hseen
        | succ m' =>
          rw [List.getD_cons_succ] at hd
          rw [List.take_succ_cons, List.map_cons] at htake
          exact ⟨m', by simpa using hm, by omega, hd, hseen,
            fun hmem => htake (List.mem_cons_of_mem _ hmem)⟩
    · rw [keptFrom, if_neg hx, List.mem_cons, ih]
      constructor
      · rintro (heq | ⟨m, hm, hj, hd, hseen, htake⟩)
        · obtain ⟨rfl, rfl⟩ := Prod.mk.injEq .. ▸ heq
          exact ⟨0, by simp, by omega, by simp, hx, by simp⟩
        · have hne : citationKey d.metadata ≠ citationKey x.metadata :=
            fun he => hseen (he ▸ List.mem_cons_self _ _)
          refine ⟨m + 1, by simpa using hm, by omega, by simpa using hd,
            fun hs => hseen (List.mem_cons_of_mem _ hs), ?_⟩
          rw [List.take_succ_cons, List.map_cons]
          intro hmem
          rcases List.mem_cons.mp hmem with heq | hmem'
          · exact hne heq
          · exact htake hmem'
      · rintro ⟨m, hm, hj, hd, hseen, htake⟩
        cases m with
        | zero =>
          rw [List.getD_cons_zero] at hd
          left
          rw [Prod.mk.injEq]
          exact ⟨by omega, hd.symm⟩
        | succ m' =>
          rw [List.getD_cons_succ] at hd
          rw [List.take_succ_cons, List.map_cons] at htake
          right
          refine ⟨m', by simpa using hm, by omega, hd, ?_, ?_⟩
          · intro hmem
            rcases List.mem_cons.mp hmem with heq | hmem'
            · exact htake (heq ▸ List.mem_cons_self _ _)
            · exact hseen hmem'
          · exact fun hmem => htake (List.mem_cons_of_mem _ hmem)

/-- C4.  Deduplication of `format_sources`: for non-empty input the returned
list is the citation of each kept document; the kept documents form a sublist
of the enumerated input (first-seen input order) with pairwise-distinct
deduplication keys; two kept documents with the same non-empty source path are
identical; a document without a source path is keyed by the
title+authors+journal composite; and a position survives exactly when no
earlier position carries the same key. -/
theorem C4_format_sources_dedup (docs : List Document) :
    (docs ≠ [] →
      format_sources docs = (keptFrom [] 0 docs).map fun p => citationOf p.1 p.2.metadata)
    ∧ List.Sublist (keptFrom [] 0 docs) docs.enum
    ∧ ((keptFrom [] 0 docs).map fun p => citationKey p.2.metadata).Nodup
    ∧ (∀ p ∈ keptFrom [] 0 docs, ∀ q ∈ keptFrom [] 0 docs,
        getS p.2.metadata.source ≠ "" → getS p.2.metadata.source = getS q.2.metadata.source →
          p = q)
    ∧ (∀ md : Metadata, getS md.source = "" →
        citationKey md = getS md.paper_title ++ "_" ++ getS md.authors ++ "_" ++ getS md.journal)
    ∧ (∀ (j : Nat) (d : Document),
        ((j, d) ∈ keptFrom [] 0 docs)
          ↔ j < docs.length ∧ docs.getD j {} = d
              ∧ citationKey d.metadata ∉ (docs.take j).map fun x => citationKey x.metadata) := by
  have hnodup := (keptFrom_keys docs 0 []).2
  refine ⟨?_, ?_, hnodup, ?_, ?_, ?_⟩
  · intro h
    rw [(format_sources_eq docs h).1, formatLoop_eq_keptFrom]
  · simpa using keptFrom_sublist docs 0 []
  · intro p hp q hq hps hpq
    have hkp : citationKey p.2.metadata = getS p.2.metadata.source := if_pos hps
    have hkq : citationKey q.2.metadata = getS q.2.metadata.source :=
      if_pos (hpq ▸ hps)
    exact List.inj_on_of_nodup_map hnodup hp hq (by rw [hkp, hkq, hpq])
  · intro md h
    have h2 : ¬ getS md.source ≠ "" := fun hc => hc h
    rw [citationKey, if_neg h2, derivedTitle, if_neg]
    intro ⟨_, hc⟩
    exact hc h
  · intro j d
    rw [keptFrom_mem_iff docs 0 [] j d]
    constructor
    · rintro ⟨m, hm, hj, hd, _, htake⟩
      exact ⟨by omega, by rw [show j = m by omega]; exact hd, by rw [show j = m by omega]; exact htake⟩
    · rintro ⟨hj, hd, htake⟩
      exact ⟨j, hj, by omega, hd, by simp, htake⟩

/-- C4, witness: the dedup theorem evaluated on a concrete two-document list
sharing one source path — only the first survives. -/
theorem C4_format_sources_dedup_witness :
    format_sources
        [⟨"a", { source := some ("p/x.pdf") }⟩, ⟨"b", { source := some ("p/x.pdf") }⟩]
      = (keptFrom [] 0
          [⟨"a", { source := some ("p/x.pdf") }⟩, ⟨"b", { source := some ("p/x.pdf") }⟩]).map
          fun p => citationOf p.1 p.2.metadata :=
  (C4_format_sources_dedup
    [⟨"a", { source := some ("p/x.pdf") }⟩, ⟨"b", { source := some ("p/x.pdf") }⟩]).1
    (by decide)

/-- C5, counterexample.  With no PDF files (or no chunks) the ingestion run
returns early with a printed diagnostic and writes no index, but it does not
fail with an `EmptyCorpusError`: no branch of `main` raises, and no such
exception type exists anywhere in the repository. -/
theorem C5_counterexample :
    mainIngest true ["notes.txt"] [] (.ok ()) = ⟨.noPdfFiles, false⟩
    ∧ (mainIngest true ["notes.txt"] [] (.ok ())).outcome ≠ .raised ("EmptyCorpusError")
    ∧ mainIngest true ["a.pdf"] [] (.ok ()) = ⟨.noChunks, false⟩
    ∧ (mainIngest true ["a.pdf"] [] (.ok ())).outcome ≠ .raised ("EmptyCorpusError") := by
  refine ⟨rfl, ?_, rfl, ?_⟩ <;> decide

/-- C5, amended.  If no PDFs are found, or chunking produces nothing, the
ingestion run reports the condition and halts with no index written; the
failure is signalled by an early `return` after a printed diagnostic, never by
raising an exception. -/
theorem C5_ingest_halts (entries : List String) (chunks : List Document)
    (createResult : Except String Unit) :
    (pdfFilter entries = [] →
      mainIngest true entries chunks createResult = ⟨.noPdfFiles, false⟩)
    ∧ (pdfFilter entries ≠ [] → chunks = [] →
        mainIngest true entries chunks createResult = ⟨.noChunks, false⟩)
    ∧ ∀ (dirExists : Bool) (e : String),
        (mainIngest dirExists entries chunks createResult).outcome ≠ .raised e := by
  refine ⟨?_, ?_, ?_⟩
  · intro h
    simp [mainIngest, h]
  · intro h1 h2
    simp [mainIngest, h1, h2]
  · intro dirExists e
    unfold mainIngest
    repeat' split
    all_goals simp

/-- C5, witness: the amended theorem evaluated at a concrete environment with
one PDF file but no chunks. -/
theorem C5_ingest_halts_witness :
    mainIngest true ["paper.pdf"] [] (.error "api down") = ⟨.noChunks, false⟩ :=
  (C5_ingest_halts ["paper.pdf"] [] (.error "api down")).2.1 (by decide) rfl

/-- C6, counterexample.  A successful `ask` leaves the facade instance
bit-identical — no (question, answer) pair is appended to any facade-held
history, because the facade holds none — and the UI's clear/reset action
truncates the session history to the empty list. -/
theorem C6_counterexample :
    (askSt ⟨"data/chroma_db", 5⟩
        (.ok { result := some ("An answer."), source_documents := some [] })).1
      = ⟨"data/chroma_db", 5⟩
    ∧ clearConversation
        [⟨"user", "What metabolomic changes occur?", none⟩,
         ⟨"assistant", "An answer.", some ["No relevant sources found"]⟩] = [] :=
  ⟨rfl, rfl⟩

/-- C6, amended.  The facade holds no conversation history: `ask` returns the
facade state unchanged.  The conversation history is session state owned by
the UI layer, which appends one user record and one assistant record (with its
citations) per turn, and whose reset/clear buttons truncate it to empty. -/
theorem C6_history_owned_by_ui :
    (∀ (p : RAGPipeline) (qaOutcome : Except String QAResponse), (askSt p qaOutcome).1 = p)
    ∧ (∀ (hist : List ChatMessage) (prompt : String) (qaOutcome : Except String QAResponse),
        chatTurn hist prompt qaOutcome
          = hist ++ [⟨"user", prompt, none⟩]
              ++ [⟨"assistant", extractAnswer (ask qaOutcome),
                   some (extractCitations (ask qaOutcome))⟩])
    ∧ (∀ hist : List ChatMessage, clearConversation hist = []) :=
  ⟨fun _ _ => rfl, fun _ _ _ => rfl, fun _ => rfl⟩

/-- The title part carries the tag `**Ti`. -/
theorem fieldTagTitle (t : String) : fieldTag ("**Title**: " ++ t) = ['*', '*', 'T', 'i'] := rfl

/-- The placeholder part carries the tag `**Do`. -/
theorem fieldTagDoc (n : Nat) :
    fieldTag ("**Document " ++ toString n ++ "**") = ['*', '*', 'D', 'o'] := rfl

/-- The authors part carries the tag `**Au`. -/
theorem fieldTagAuthors (a : String) :
    fieldTag ("**Authors**: " ++ a) = ['*', '*', 'A', 'u'] := rfl

/-- The journal part carries the tag `**Jo`. -/
theorem fieldTagJournal (j : String) :
    fieldTag ("**Journal**: " ++ j) = ['*', '*', 'J', 'o'] := rfl

/-- The year part carries the tag `**Ye`. -/
theorem fieldTagYear (y : String) : fieldTag ("**Year**: " ++ y) = ['*', '*', 'Y', 'e'] := rfl

/-- The DOI part carries the tag `**DO`. -/
theorem fieldTagDOI (d : String) : fieldTag ("**DOI**: " ++ d) = ['*', '*', 'D', 'O'] := rfl

/-- C7, counterexample.  A source document that supplies no authors metadata
is, after ingestion enhancement, rendered with the placeholder part
`**Authors**: Unknown Author` in its citation — the missing field is not
omitted. -/
theorem C7_counterexample :
    ("**Authors**: Unknown Author")
        ∈ citationParts 0
            (((enhance_document_metadata
                (load_pdfs [⟨"hello", { source := some ("papers/widget_study.pdf") }⟩])).getD 0
              {}).metadata)
    ∧ (⟨"hello", { source := some ("papers/widget_study.pdf") }⟩ : Document).metadata.authors
        = none := by
  constructor
  · decide
  · rfl

/-- C7, amended.  The formatter itself appends an authors, journal (with
volume, pages and year folded in) or DOI part exactly when the corresponding
metadata value is non-empty, and omits the part entirely — no placeholder —
when the value is empty.  However, the ingestion-side metadata enhancement
fills an absent authors key with `Unknown Author` (and journal with `Unknown
Journal`) for any document not matched in the known-papers table, so citations
of ingested documents that supplied no such metadata do carry `Unknown`
placeholders. -/
theorem C7_citation_fields :
    (∀ (i : Nat) (md : Metadata),
      ((∃ s ∈ citationParts i md, fieldTag s = ['*', '*', 'A', 'u']) ↔ getS md.authors ≠ "")
      ∧ (getS md.authors ≠ "" → ("**Authors**: " ++ getS md.authors) ∈ citationParts i md)
      ∧ ((∃ s ∈ citationParts i md, fieldTag s = ['*', '*', 'J', 'o']) ↔ getS md.journal ≠ "")
      ∧ (getS md.journal ≠ "" → ("**Journal**: " ++ journalInfo md) ∈ citationParts i md)
      ∧ ((∃ s ∈ citationParts i md, fieldTag s = ['*', '*', 'D', 'O']) ↔ getS md.doi ≠ "")
      ∧ (getS md.doi ≠ "" → ("**DOI**: " ++ getS md.doi) ∈ citationParts i md))
    ∧ (∀ md : Metadata,
        containsSub (strLower (getS md.source)) knownPaperKey = false → md.authors = none →
          (enhanceMeta md).authors = some ("Unknown Author"))
    ∧ (∀ (i : Nat) (md : Metadata), md.authors = some ("Unknown Author") →
        ("**Authors**: Unknown Author") ∈ citationParts i md) := by
  have h1 : ∀ (i : Nat) (md : Metadata),
      ((∃ s ∈ citationParts i md, fieldTag s = ['*', '*', 'A', 'u']) ↔ getS md.authors ≠ "")
      ∧ (getS md.authors ≠ "" → ("**Authors**: " ++ getS md.authors) ∈ citationParts i md)
      ∧ ((∃ s ∈ citationParts i md, fieldTag s = ['*', '*', 'J', 'o']) ↔ getS md.journal ≠ "")
      ∧ (getS md.journal ≠ "" → ("**Journal**: " ++ journalInfo md) ∈ citationParts i md)
      ∧ ((∃ s ∈ citationParts i md, fieldTag s = ['*', '*', 'D', 'O']) ↔ getS md.doi ≠ "")
      ∧ (getS md.doi ≠ "" → ("**DOI**: " ++ getS md.doi) ∈ citationParts i md) := by
    intro i md
    unfold citationParts
    by_cases ht : derivedTitle md ≠ "" <;>
    by_cases ha : getS md.authors ≠ "" <;>
    by_cases hj : getS md.journal ≠ "" <;>
    by_cases hy : getS md.year ≠ "" <;>
    by_cases hd : getS md.doi ≠ "" <;>
    simp [ht, ha, hj, hy, hd, fieldTagTitle, fieldTagDoc, fieldTagAuthors, fieldTagJournal,
      fieldTagYear, fieldTagDOI]
  refine ⟨h1, ?_, ?_⟩
  · intro md hm ha
    by_cases hp : md.paper_title = none ∨ getS md.paper_title = "" <;>
    by_cases hj : md.journal = none <;>
    simp [enhanceMeta, hm, ha, hp, hj]
  · intro i md h
    have hmem := (h1 i md).2.1 (by simp [getS, h])
    rwa [show ("**Authors**: " ++ getS md.authors) = "**Authors**: Unknown Author" by
      rw [h]; rfl] at hmem

/-- C7, witness: the formatter-side membership evaluated at concrete
metadata carrying only an authors value. -/
theorem C7_citation_fields_witness :
    ("**Authors**: Uhde et al.") ∈ citationParts 0 { authors := some ("Uhde et al.") } :=
  (C7_citation_fields.1 0 { authors := some ("Uhde et al.") }).2.1 (by decide)

/-- C8, counterexample.  For an un-matched document, the loader attaches the
raw file-name stem as the paper title — underscores and hyphens are kept and
nothing is title-cased — which differs from the cleaned title the claim
specifies. -/
theorem C8_counterexample :
    (load_pdfs [⟨"hello", { source := some ("papers/my_paper-2020.pdf") }⟩]).map
        (fun c => c.metadata.paper_title) = [some ("my_paper-2020")]
    ∧ ("my_paper-2020" : String)
        ≠ pyTitle (replaceUH (splitextStem (basename ("papers/my_paper-2020.pdf"))))
    ∧ pyTitle (replaceUH (splitextStem (basename ("papers/my_paper-2020.pdf"))))
        = "My Paper 2020" := by
  refine ⟨by decide, by decide, by decide⟩

/-- C8, amended.  The chunker attaches a paper title equal to the source file
name with only its extension stripped; the underscore/hyphen-to-space and
title-case cleaning exists only in the citation formatter's fallback, which
applies exactly when a chunk reaches it with an empty `paper_title` and a
non-empty source path (never the case for chunks the loader produced from a
document with a source and a non-empty stem). -/
theorem C8_attached_title (d : Document) (s : String) (hs : d.metadata.source = some s) :
    (∀ c ∈ load_pdfs [d],
      c.metadata.paper_title = some (splitextStem (basename s))
      ∧ (splitextStem (basename s) ≠ "" →
          derivedTitle c.metadata = splitextStem (basename s)))
    ∧ (∀ md : Metadata, getS md.paper_title = "" → getS md.source ≠ "" →
        derivedTitle md = pyTitle (replaceUH (splitextStem (basename (getS md.source))))) := by
  constructor
  · intro c hc
    have hmeta : c.metadata = loaderEnhanceMeta d.metadata := by
      simp only [load_pdfs, split_documents, List.map_cons, List.map_nil, List.flatten_cons,
        List.flatten_nil, List.append_nil, List.mem_map] at hc
      obtain ⟨cs, _, rfl⟩ := hc
      rfl
    have hpt : (loaderEnhanceMeta d.metadata).paper_title
        = some (splitextStem (basename s)) := by
      simp [loaderEnhanceMeta, hs]
    constructor
    · rw [hmeta, hpt]
    · intro hne
      rw [hmeta, derivedTitle, if_neg]
      · rw [hpt]
        rfl
      · rintro ⟨h1, _⟩
        rw [hpt] at h1
        exact hne h1
  · intro md h1 h2
    rw [derivedTitle, if_pos ⟨h1, h2⟩]

/-- C8, witness: the amended theorem evaluated at a concrete document whose
file name contains an underscore. -/
theorem C8_attached_title_witness :
    ((load_pdfs [⟨"hi", { source := some ("a/b_c.pdf") }⟩]).getD 0 {}).metadata.paper_title
      = some (splitextStem (basename ("a/b_c.pdf"))) :=
  ((C8_attached_title ⟨"hi", { source := some ("a/b_c.pdf") }⟩ ("a/b_c.pdf") rfl).1
    ((load_pdfs [⟨"hi", { source := some ("a/b_c.pdf") }⟩]).getD 0 {}) (by decide)).1

/-- Every chunk the window splitter produces is at most `size` characters,
provided the fuel covers the text (`stride` many characters are consumed per
step). -/
theorem chunkWindows_le (size stride : Nat) :
    ∀ (fuel : Nat) (cs : List Char), cs.length ≤ fuel * stride + size →
      ∀ c ∈ chunkWindows size stride fuel cs, c.length ≤ size := by
  intro fuel
  induction fuel with
  | zero =>
    intro cs h c hc
    simp only [chunkWindows, List.mem_singleton] at hc
    subst hc
    simpa using h
  | succ n ih =>
    intro cs h c hc
    rw [chunkWindows] at hc
    by_cases hle : cs.length ≤ size
    · rw [if_pos hle] at hc
      simp only [List.mem_singleton] at hc
      subst hc
      exact hle
    · rw [if_neg hle] at hc
      rcases List.mem_cons.mp hc with rfl | hc'
      · rw [List.length_take]
        exact Nat.min_le_left _ _
      · refine ih (cs.drop stride) ?_ c hc'
        rw [List.length_drop]
        have hmul : (n + 1) * stride = n * stride + stride := by ring
        omega

/-- The first chunk of the window splitter agrees with the text on any
first `k ≤ size` characters. -/
theorem chunkWindows_headD_take (size stride k : Nat) (hk : k ≤ size) :
    ∀ (fuel : Nat) (cs : List Char),
      ((chunkWindows size stride fuel cs).headD []).take k = cs.take k := by
  intro fuel cs
  cases fuel with
  | zero => rfl
  | succ n =>
    rw [chunkWindows]
    by_cases hle : cs.length ≤ size
    · rw [if_pos hle]
      rfl
    · rw [if_neg hle]
      show ((cs.take size :: _).headD []).take k = cs.take k
      rw [List.headD_cons, List.take_take, Nat.min_eq_left hk]

/-- The window splitter never returns an empty chunk list. -/
theorem chunkWindows_ne_nil (size stride : Nat) :
    ∀ (fuel : Nat) (cs : List Char), chunkWindows size stride fuel cs ≠ [] := by
  intro fuel cs
  cases fuel with
  | zero => simp [chunkWindows]
  | succ n =>
    rw [chunkWindows]
    by_cases hle : cs.length ≤ size
    · simp [hle]
    · simp [hle]

/-- Consecutive chunks overlap in exactly `size - stride` characters: any
non-final chunk is exactly `size` long, and its last `size - stride`
characters are the next chunk's first `size - stride` characters. -/
theorem chunkWindows_overlap (size stride : Nat) :
    ∀ (fuel : Nat) (cs : List Char) (i : Nat),
      i + 1 < (chunkWindows size stride fuel cs).length →
      ((chunkWindows size stride fuel cs).getD i []).drop stride
          = ((chunkWindows size stride fuel cs).getD (i + 1) []).take (size - stride)
      ∧ (((chunkWindows size stride fuel cs).getD i []).drop stride).length = size - stride
      ∧ ((chunkWindows size stride fuel cs).getD i []).length = size := by
  intro fuel
  induction fuel with
  | zero =>
    intro cs i h
    simp only [chunkWindows, List.length_singleton] at h
    exact absurd h (by omega)
  | succ n ih =>
    intro cs i h
    rw [chunkWindows] at h ⊢
    by_cases hle : cs.length ≤ size
    · rw [if_pos hle] at h
      simp only [List.length_singleton] at h
      exact absurd h (by omega)
    · rw [if_neg hle] at h ⊢
      cases i with
      | zero =>
        rw [List.getD_cons_zero, List.getD_cons_succ]
        have hget : (chunkWindows size stride n (cs.drop stride)).getD 0 []
            = (chunkWindows size stride n (cs.drop stride)).headD [] := by
          cases hcw : chunkWindows size stride n (cs.drop stride) with
          | nil => exact absurd hcw (chunkWindows_ne_nil size stride n _)
          | cons a l => rfl
        refine ⟨?_, ?_, ?_⟩
        · rw [hget, chunkWindows_headD_take size stride (size - stride) (by omega) n,
            List.drop_take]
        · rw [List.length_drop, List.length_take]
          omega
        · rw [List.length_take]
          omega
      | succ i' =>
        rw [List.getD_cons_succ, List.getD_cons_succ]
        exact ih (cs.drop stride) i' (by simpa using h)

/-- C9.  With the repository's configuration (`chunk_size=1000`,
`chunk_overlap=200`), every chunk of a split text is at most 1000 characters,
and any two consecutive chunks of the same text share exactly the 200-character
overlap: the non-final chunk is exactly 1000 long and its last 200 characters
equal the next chunk's first 200 characters. -/
theorem C9_chunk_size_overlap (text : List Char) :
    (∀ c ∈ splitText text, c.length ≤ chunk_size)
    ∧ ∀ i : Nat, i + 1 < (splitText text).length →
        ((splitText text).getD i []).length = chunk_size
        ∧ ((splitText text).getD i []).drop (chunk_size - chunk_overlap)
            = ((splitText text).getD (i + 1) []).take chunk_overlap
        ∧ (((splitText text).getD i []).drop (chunk_size - chunk_overlap)).length
            = chunk_overlap := by
  constructor
  · intro c hc
    refine chunkWindows_le chunk_size (chunk_size - chunk_overlap) text.length text ?_ c hc
    show text.length ≤ text.length * 800 + 1000
    omega
  · intro i h
    have ho := chunkWindows_overlap chunk_size (chunk_size - chunk_overlap)
      text.length text i h
    exact ⟨ho.2.2, ho.1, ho.2.1⟩

set_option maxRecDepth 16384 in
/-- C9, witness: the bounds evaluated on a concrete 1200-character text, which
splits into a 1000-character chunk and a 400-character chunk overlapping in
200 characters. -/
theorem C9_chunk_size_overlap_witness :
    ((splitText (List.replicate 1200 'a')).getD 0 []).length ≤ chunk_size
    ∧ ((splitText (List.replicate 1200 'a')).getD 0 []).drop (chunk_size - chunk_overlap)
        = ((splitText (List.replicate 1200 'a')).getD 1 []).take chunk_overlap
    ∧ ((splitText (List.replicate 1200 'a')).getD 0 []).length = chunk_size :=
  ⟨(C9_chunk_size_overlap (List.replicate 1200 'a')).1
      ((splitText (List.replicate 1200 'a')).getD 0 []) (by decide),
   ((C9_chunk_size_overlap (List.replicate 1200 'a')).2 0 (by decide)).2.1,
   ((C9_chunk_size_overlap (List.replicate 1200 'a')).2 0 (by decide)).1⟩

/-- C10.  Every chunk `load_pdfs` returns inherits the enhanced metadata of a
loaded document; in particular, when that document's metadata has a `source`
key, the chunk carries `paper_title` equal to the source file name with only
its extension stripped, and a `page` key (defaulted to the empty string when
the PDF loader supplied none). -/
theorem C10_chunk_metadata (docs : List Document) (c : Document)
    (hc : c ∈ load_pdfs docs) :
    ∃ d ∈ docs, c.metadata = loaderEnhanceMeta d.metadata
      ∧ ∀ s : String, d.metadata.source = some s →
          c.metadata.paper_title = some (splitextStem (basename s))
          ∧ c.metadata.page ≠ none := by
  simp only [load_pdfs, split_documents, List.map_map, List.mem_flatten, List.mem_map]
    at hc
  obtain ⟨l, ⟨d, hd, rfl⟩, hcl⟩ := hc
  obtain ⟨cs, _, rfl⟩ := List.mem_map.mp hcl
  refine ⟨d, hd, rfl, ?_⟩
  intro s hs
  constructor
  · show (loaderEnhanceMeta d.metadata).paper_title = some (splitextStem (basename s))
    simp [loaderEnhanceMeta, hs]
  · show (loaderEnhanceMeta d.metadata).page ≠ none
    simp [loaderEnhanceMeta, hs]

/-- C10, witness: the metadata inheritance evaluated at a concrete one-page
document whose chunk gets the stem `b` as paper title and a defaulted page. -/
theorem C10_chunk_metadata_witness :
    ((load_pdfs [⟨"hi", { source := some ("a/b.pdf") }⟩]).getD 0 {}).metadata.paper_title
      = some ("b")
    ∧ ((load_pdfs [⟨"hi", { source := some ("a/b.pdf") }⟩]).getD 0 {}).metadata.page
        ≠ none := by
  obtain ⟨d, hd, hmeta, hfun⟩ :=
    C10_chunk_metadata [⟨"hi", { source := some ("a/b.pdf") }⟩]
      ((load_pdfs [⟨"hi", { source := some ("a/b.pdf") }⟩]).getD 0 {}) (by decide)
  have hd' : d = ⟨"hi", { source := some ("a/b.pdf") }⟩ := by simpa using hd
  obtain ⟨h1, h2⟩ := hfun ("a/b.pdf") (by rw [hd'])
  refine ⟨?_, h2⟩
  rw [h1]
  rfl

end BioRAG
